import Mathlib

/-!
Shallow embedding of `src/heart_risk_api/main.py` (a FastAPI service that
accepts a CSV upload, runs a loaded classifier on its rows and renders the
per-row probabilities as HTML context, JSON text and CSV text).

Python/pandas machinery is modelled at the level the handler observes it:
text is a list of characters, an uploaded body is a list of bytes, a parsed
table is a header row plus cell rows, the Python `dict` built by
`dict(zip(ids, predictions))` is an insertion-ordered association list with
last-write-wins update, and numbers are exact rationals rendered as
`num/den` (an injective stand-in for Python float repr, which also
round-trips through printing).
-/

namespace HeartRisk

/-- Splitting a character list on a separator, the way `str.split` /
line-splitting behaves: `n` separators yield `n + 1` (possibly empty)
parts. -/
def splitCh (sep : Char) : List Char → List (List Char)
  | [] => [[]]
  | c :: cs =>
    let r := splitCh sep cs
    if c = sep then [] :: r else (c :: r.headD []) :: r.tail

/-- Python `str.endswith`, used by the handler on the upload filename. -/
def endswith (s suffix : String) : Bool :=
  suffix.data.isSuffixOf s.data

/-- The character for a single decimal digit, as `str` prints it. -/
def digChar (d : Nat) : Char := Char.ofNat (48 + d)

/-- The numeric value of a decimal digit character. -/
def digVal (c : Char) : Nat := c.toNat - 48

/-- Whether a character is a decimal digit. -/
def isDig (c : Char) : Bool := 48 ≤ c.toNat && c.toNat ≤ 57

/-- Little-endian decimal digits of `n`, with explicit fuel so that the
definition is structurally recursive. -/
def digitsRevAux : Nat → Nat → List Nat
  | 0, _ => []
  | f + 1, n => if n = 0 then [] else n % 10 :: digitsRevAux f (n / 10)

/-- Little-endian decimal digits of `n` (empty for `0`). -/
def digitsRev (n : Nat) : List Nat := digitsRevAux n n

/-- Value of a little-endian decimal digit list. -/
def ofDigitsRev : List Nat → Nat
  | [] => 0
  | d :: t => d + 10 * ofDigitsRev t

/-- Decimal rendering of a natural number, as Python `str` prints it. -/
def showNat (n : Nat) : List Char :=
  if n = 0 then ['0'] else ((digitsRev n).map digChar).reverse

/-- Parse a decimal digit string back to a natural number. -/
def parseNat (l : List Char) : Option Nat :=
  match l with
  | [] => none
  | _ => if l.all isDig then some (ofDigitsRev ((l.map digVal).reverse)) else none

/-- Decimal rendering of an integer, as Python `str` prints it. -/
def showInt (i : Int) : List Char :=
  if i < 0 then '-' :: showNat i.natAbs else showNat i.natAbs

/-- Parse an optionally negated decimal digit string back to an integer. -/
def parseInt (l : List Char) : Option Int :=
  match l with
  | [] => none
  | c :: t =>
    if c = '-' then (parseNat t).map (fun n => -(n : Int))
    else (parseNat (c :: t)).map (fun n => (n : Int))

/-- Exact rendering of a rational number as `num/den`: the embedding's
injective stand-in for the round-tripping float repr Python uses when
formatting predictions. -/
def showQ (q : ℚ) : List Char := showInt q.num ++ '/' :: showNat q.den

/-- Parse a `num/den` rendering back to the rational it denotes. -/
def parseQ (l : List Char) : Option ℚ :=
  match splitCh '/' l with
  | [ns, ds] => (parseInt ns).bind fun n => (parseNat ds).map fun d => (n : ℚ) / (d : ℚ)
  | _ => none

/-- String form of `showQ`. -/
def showQs (q : ℚ) : String := (showQ q).asString

/-- String form of `parseQ`. -/
def parseQs (s : String) : Option ℚ := parseQ s.data

/-- UTF-8 decoding of a byte list into code points, with fuel for structural
recursion; models Python `bytes.decode` raising `UnicodeDecodeError` on
malformed input.  Checks start-byte ranges, continuation bytes, overlong
encodings and surrogates the way CPython does. -/
def utf8DecodeAux : Nat → List Nat → Except String (List Nat)
  | _, [] => .ok []
  | 0, _ :: _ => .error "decoder ran out of fuel"
  | f + 1, b :: rest =>
    if b < 0x80 then (utf8DecodeAux f rest).map (fun l => b :: l)
    else if b < 0xC2 then .error "invalid start byte"
    else if b < 0xE0 then
      match rest with
      | [] => .error "unexpected end of data"
      | c1 :: rest1 =>
        if 0x80 ≤ c1 ∧ c1 ≤ 0xBF then
          (utf8DecodeAux f rest1).map (fun l => ((b - 0xC0) * 0x40 + (c1 - 0x80)) :: l)
        else .error "invalid continuation byte"
    else if b < 0xF0 then
      match rest with
      | [] => .error "unexpected end of data"
      | [_] => .error "unexpected end of data"
      | c1 :: c2 :: rest2 =>
        if (0x80 ≤ c1 ∧ c1 ≤ 0xBF) ∧ (0x80 ≤ c2 ∧ c2 ≤ 0xBF) then
          if b = 0xE0 ∧ c1 < 0xA0 then .error "invalid continuation byte"
          else if b = 0xED ∧ 0xA0 ≤ c1 then .error "invalid continuation byte"
          else
            (utf8DecodeAux f rest2).map
              (fun l => ((b - 0xE0) * 0x1000 + (c1 - 0x80) * 0x40 + (c2 - 0x80)) :: l)
        else .error "invalid continuation byte"
    else if b < 0xF5 then
      match rest with
      | [] => .error "unexpected end of data"
      | [_] => .error "unexpected end of data"
      | [_, _] => .error "unexpected end of data"
      | c1 :: c2 :: c3 :: rest3 =>
        if (0x80 ≤ c1 ∧ c1 ≤ 0xBF) ∧ (0x80 ≤ c2 ∧ c2 ≤ 0xBF) ∧ (0x80 ≤ c3 ∧ c3 ≤ 0xBF) then
          if b = 0xF0 ∧ c1 < 0x90 then .error "invalid continuation byte"
          else if b = 0xF4 ∧ 0x90 ≤ c1 then .error "invalid continuation byte"
          else
            (utf8DecodeAux f rest3).map
              (fun l =>
                ((b - 0xF0) * 0x40000 + (c1 - 0x80) * 0x1000 +
                    (c2 - 0x80) * 0x40 + (c3 - 0x80)) :: l)
        else .error "invalid continuation byte"
    else .error "invalid start byte"

/-- `contents.decode("utf-8")`: either the decoded text or a decode error. -/
def decodeStr (bytes : List Nat) : Except String String :=
  (utf8DecodeAux bytes.length bytes).map fun cps => (cps.map Char.ofNat).asString

instance {ε α : Type} [DecidableEq ε] [DecidableEq α] : DecidableEq (Except ε α) :=
  fun x y =>
    match x, y with
    | .error a, .error b =>
      if h : a = b then .isTrue (by rw [h])
      else .isFalse (fun hx => h (Except.error.injEq a b ▸ hx))
    | .ok a, .ok b =>
      if h : a = b then .isTrue (by rw [h])
      else .isFalse (fun hx => h (Except.ok.injEq a b ▸ hx))
    | .error _, .ok _ => .isFalse (fun hx => Except.noConfusion hx)
    | .ok _, .error _ => .isFalse (fun hx => Except.noConfusion hx)

/-- A parsed table as the handler sees it after `pd.read_csv`: header column
names and rows of string cells. -/
structure DataFrame where
  columns : List String
  rows : List (List String)
deriving DecidableEq

/-- The cells of one CSV line. -/
def cellsOfLine (l : List Char) : List String :=
  (splitCh ',' l).map List.asString

/-- `pd.read_csv` on decoded text, modelled for simple (unquoted) CSV: split
into non-blank lines, the first line is the header, every further line is a
row of cells; an empty input or a ragged table is a parse error. -/
def read_csv (s : String) : Except String DataFrame :=
  match (splitCh '\n' s.data).filter (fun l => l ≠ []) with
  | [] => .error "No columns to parse from file"
  | hdr :: rest =>
    let cols := cellsOfLine hdr
    let rows := rest.map cellsOfLine
    if rows.all (fun r => r.length = cols.length) then .ok ⟨cols, rows⟩
    else .error "Error tokenizing data"

/-- First index of a column name in a header, as pandas column selection
resolves a label. -/
def findIdxS (c : String) : List String → Option Nat
  | [] => none
  | x :: t => if x = c then some 0 else (findIdxS c t).map (fun i => i + 1)

/-- `df[c]`: the cells of column `c`, in row order. -/
def DataFrame.getCol (df : DataFrame) (c : String) : List String :=
  match findIdxS c df.columns with
  | some i => df.rows.map (fun r => r.getD i "")
  | none => []

/-- One row after `df.drop(c, axis=1)`: remove cells in columns labelled `c`. -/
def dropColRow (cols : List String) (c : String) (r : List String) : List String :=
  ((cols.zip r).filter (fun p => p.1 ≠ c)).map Prod.snd

/-- `df.drop(c, axis=1)`: remove every column labelled `c`. -/
def DataFrame.drop (df : DataFrame) (c : String) : DataFrame :=
  ⟨df.columns.filter (fun x => x ≠ c), df.rows.map (dropColRow df.columns c)⟩

/-- Lookup in a Python dict modelled as an association list: the value at
the (unique, for dicts) entry with key `k`. -/
def dictGet (k : String) : List (String × ℚ) → Option ℚ
  | [] => none
  | (k0, v) :: t => if k = k0 then some v else dictGet k t

/-- One step of Python dict construction: assigning `d[k] = v` overwrites an
existing entry for `k` in place, otherwise appends a new entry at the end
(insertion order, as in CPython 3.7+). -/
def dictInsert (d : List (String × ℚ)) (k : String) (v : ℚ) : List (String × ℚ) :=
  if d.any (fun p => p.1 = k) then d.map (fun p => if p.1 = k then (k, v) else p)
  else d ++ [(k, v)]

/-- `dict(pairs)`: fold the pairs into an insertion-ordered dict. -/
def dictOfList (l : List (String × ℚ)) : List (String × ℚ) :=
  l.foldl (fun d p => dictInsert d p.1 p.2) []

/-- `dict(zip(ks, vs))`, as the handler builds `result_dict`. -/
def dictOfZip (ks : List String) (vs : List ℚ) : List (String × ℚ) :=
  dictOfList (ks.zip vs)

/-- The key sequence of a dict, in entry order. -/
def keys (d : List (String × ℚ)) : List String := d.map Prod.fst

/-- The identifiers of a list in first-seen order, skipping any already in
`seen`: the key order a Python dict built by repeated insertion exhibits. -/
def firstSeenAux (seen : List String) : List String → List String
  | [] => []
  | k :: t => if k ∈ seen then firstSeenAux seen t else k :: firstSeenAux (k :: seen) t

/-- The identifiers of a list, first occurrence first, each exactly once. -/
def firstSeen (l : List String) : List String := firstSeenAux [] l

/-- The loaded classifier, abstracted: its feature-name list (read from the
artifact at startup as `model.feature_name_`) and a per-row scoring
function.  The artifact itself is external to the repository; per the spec
the score of a row is a probability in `[0, 1]`. -/
structure Model where
  feature_name_ : List String
  predictRow : List (String × String) → ℚ
  predictRow_mem : ∀ r, 0 ≤ predictRow r ∧ predictRow r ≤ 1

/-- Whether the supplied columns are exactly the Feature Schema, by name and
order-insensitively. -/
def Model.schemaOk (m : Model) (cols : List String) : Bool :=
  m.feature_name_.all (fun f => cols.contains f) && cols.all (fun c => m.feature_name_.contains c)

/-- The error text the inference library raises on a feature mismatch. -/
def featureMismatchMsg : String :=
  "Input data columns do not match the feature names of the model"

/-- Modelled from the spec: `model.predict` on a parsed table.  The model
artifact and inference library are outside the repository; per the spec the
call validates that every row supplies exactly the Feature Schema fields
(extra or missing fields are a validation error, raised as an exception) and
otherwise yields one probability per row, in row order, with by-name access
to the cells. -/
def Model.predict (m : Model) (df : DataFrame) : Except String (List ℚ) :=
  if m.schemaOk df.columns then
    .ok (df.rows.map (fun r => m.predictRow (df.columns.zip r)))
  else .error featureMismatchMsg

/-- The fixed feature-description mapping `FEATURE_DESCRIPTIONS` of the
source, used only to populate the rendered page. -/
def FEATURE_DESCRIPTIONS : List (String × String) :=
  [("age", "Возраст (нормализованное число от 0 до 1)"),
   ("cholesterol", "Холестерин (нормализованное число от 0 до 1)"),
   ("heart_rate", "Частота сердечных сокращений"),
   ("diabetes", "Наличие диабета (1 - да, 0 - нет)"),
   ("family_history", "Семейная история болезней (1 - да, 0 - нет)"),
   ("smoking", "Курение (1 - да, 0 - нет)"),
   ("obesity", "Ожирение (1 - да, 0 - нет)"),
   ("alcohol_consumption", "Потребление алкоголя (1 - да, 0 - нет)"),
   ("exercise_hours_per_week", "Часы упражнений в неделю"),
   ("diet", "Тип диеты (0 - Здоровая, 1 - Средняя, 2 - Нездоровая)"),
   ("previous_heart_problems", "Предыдущие проблемы с сердцем (1 - да, 0 - нет)"),
   ("medication_use", "Использование медикаментов (1 - да, 0 - нет)"),
   ("stress_level", "Уровень стресса (от 1 до 10)"),
   ("sedentary_hours_per_day", "Часы сидячего образа жизни в день"),
   ("bmi", "Индекс массы тела (ИМТ)"),
   ("triglycerides", "Уровень триглицеридов"),
   ("physical_activity_days_per_week", "Дни физической активности в неделю"),
   ("sleep_hours_per_day", "Часы сна в сутки"),
   ("blood_sugar", "Уровень сахара в крови"),
   ("ck-mb", "Уровень CK-MB"),
   ("troponin", "Уровень тропонина"),
   ("gender", "Пол (1 - мужской, 0 - женский)"),
   ("systolic_blood_pressure", "Систолическое кровяное давление"),
   ("diastolic_blood_pressure", "Диастолическое кровяное давление")]

/-- The template context a handler passes to `TemplateResponse`: the fields
the `index.html` template can receive.  `request` is omitted (it carries no
data the template logic reads). -/
structure Context where
  features : List String
  descriptions : List (String × String)
  error : Option String
  results : Option (List (String × ℚ))
  results_json : Option String
  results_csv : Option String
deriving DecidableEq

/-- The context of an error page: the re-rendered form plus an `error`
message, as every error branch of the handler builds it. -/
def mkErrorCtx (m : Model) (msg : String) : Context :=
  { features := m.feature_name_
    descriptions := FEATURE_DESCRIPTIONS
    error := some msg
    results := none
    results_json := none
    results_csv := none }

/-- `json.dumps(result_dict, indent=4)`: entries of the pretty-printed JSON
object body, one per dict entry. -/
def jsonEntries : List (String × ℚ) → String
  | [] => ""
  | [p] => "    \"" ++ p.1 ++ "\": " ++ showQs p.2
  | p :: q :: t => "    \"" ++ p.1 ++ "\": " ++ showQs p.2 ++ ",\n" ++ jsonEntries (q :: t)

/-- `json.dumps(result_dict, indent=4)`: the JSON text of the result dict. -/
def jsonDumps (d : List (String × ℚ)) : String :=
  match d with
  | [] => "\x7b\x7d"
  | _ => "\x7b\n" ++ jsonEntries d ++ "\n\x7d"

/-- The data lines of `results_df.to_csv(index=False)`: one `id,prediction`
line per dict entry, each newline-terminated. -/
def csvRowsChars : List (String × ℚ) → List Char
  | [] => []
  | p :: t => p.1.data ++ ',' :: (showQ p.2 ++ '\n' :: csvRowsChars t)

/-- `results_df.to_csv(index=False)`: header line then one line per entry. -/
def to_csv (d : List (String × ℚ)) : String :=
  ("id,prediction".data ++ '\n' :: csvRowsChars d).asString

/-- The context of a successful prediction page: results for the HTML table
plus their JSON and CSV renderings. -/
def mkResultsCtx (m : Model) (d : List (String × ℚ)) : Context :=
  { features := m.feature_name_
    descriptions := FEATURE_DESCRIPTIONS
    error := none
    results := some d
    results_json := some (jsonDumps d)
    results_csv := some (to_csv d) }

/-- An upload as FastAPI hands it to the handler: an optional client-supplied
filename and the raw body bytes. -/
structure UploadFile where
  filename : Option String
  contents : List Nat
deriving DecidableEq

/-- `GET /` (`read_root`): render the form page with the feature names and
descriptions. -/
def read_root (m : Model) : Context :=
  { features := m.feature_name_
    descriptions := FEATURE_DESCRIPTIONS
    error := none
    results := none
    results_json := none
    results_csv := none }

/-- The body of the `try:` block of `predict_from_form`: decode, parse,
check for the `id` column, extract identifiers, run inference and format.
An `.error` is an exception escaping the block. -/
def predictBody (m : Model) (file : UploadFile) : Except String Context :=
  match decodeStr file.contents with
  | .error e => .error e
  | .ok text =>
    match read_csv text with
    | .error e => .error e
    | .ok data_to_predict =>
      if "id" ∉ data_to_predict.columns then
        .ok (mkErrorCtx m "В CSV файле отсутствует колонка \x27id\x27.")
      else
        let ids := data_to_predict.getCol "id"
        match m.predict (data_to_predict.drop "id") with
        | .error e => .error e
        | .ok predictions => .ok (mkResultsCtx m (dictOfZip ids predictions))

/-- `POST /` (`predict_from_form`).  The filename extension check runs before
the `try:` block — on a missing filename the attribute access itself raises,
and nothing catches it (an `.error` result is an exception escaping the
handler).  A failing extension check returns the error page; everything the
`try:` block raises is caught and turned into the generic error page. -/
def predict_from_form (m : Model) (file : UploadFile) : Except String Context :=
  match file.filename with
  | none => .error "AttributeError: \x27NoneType\x27 object has no attribute \x27endswith\x27"
  | some name =>
    if endswith name ".csv" then
      match predictBody m file with
      | .ok ctx => .ok ctx
      | .error e => .ok (mkErrorCtx m ("Произошла ошибка: " ++ e))
    else .ok (mkErrorCtx m "Неверный формат файла.")

/-- ASCII bytes of a string, for building concrete uploads. -/
def strBytes (s : String) : List Nat := s.data.map Char.toNat

/-- A concrete two-feature model whose score is always `1/2`, for witnesses. -/
def constModel : Model :=
  ⟨["age", "cholesterol"], fun _ => mkRat 1 2,
   fun _ => by
    show (0 : ℚ) ≤ mkRat 1 2 ∧ mkRat 1 2 ≤ 1
    exact ⟨by decide, by decide⟩⟩

/-- A concrete model whose score depends on the row, so that duplicate
identifiers with different features get different probabilities. -/
def rowModel : Model :=
  ⟨["age", "cholesterol"],
   fun r => if ("age", "5") ∈ r then 1 else 0,
   fun r => by dsimp only; split <;> norm_num⟩

/-- A concrete valid upload body with two distinct identifiers. -/
def sampleCsv : String := "id,age,cholesterol\n1,3,4\n2,5,6\n"

/-- The parsed table of `sampleCsv`. -/
def sampleDf : DataFrame :=
  ⟨["id", "age", "cholesterol"], [["1", "3", "4"], ["2", "5", "6"]]⟩

/-- A concrete valid upload body in which identifier `1` occurs twice with
different feature values. -/
def dupCsv : String := "id,age,cholesterol\n1,3,4\n1,5,6\n"

/-- The parsed table of `dupCsv`. -/
def dupDf : DataFrame :=
  ⟨["id", "age", "cholesterol"], [["1", "3", "4"], ["1", "5", "6"]]⟩

/-! ### Lemmas about character splitting -/

theorem splitCh_ne_nil (sep : Char) (l : List Char) : splitCh sep l ≠ [] := by
  cases l with
  | nil => simp [splitCh]
  | cons c cs => by_cases hc : c = sep <;> simp [splitCh, hc]

theorem splitCh_no_sep {sep : Char} {l : List Char} (h : ∀ c ∈ l, c ≠ sep) :
    splitCh sep l = [l] := by
  induction l with
  | nil => rfl
  | cons c cs ih =>
    have hc : c ≠ sep := h c (by simp)
    have hcs : splitCh sep cs = [cs] := ih (fun x hx => h x (by simp [hx]))
    simp [splitCh, hcs, hc]

theorem splitCh_append_cons {sep : Char} {p r : List Char} (hp : ∀ c ∈ p, c ≠ sep) :
    splitCh sep (p ++ sep :: r) = p :: splitCh sep r := by
  induction p with
  | nil => simp [splitCh]
  | cons c cs ih =>
    have hc : c ≠ sep := hp c (by simp)
    have ih2 : splitCh sep (cs ++ sep :: r) = cs :: splitCh sep r :=
      ih (fun x hx => hp x (by simp [hx]))
    simp [splitCh, ih2, hc]

theorem mem_splitCh {sep : Char} {l q : List Char} (hq : q ∈ splitCh sep l) :
    ∀ c ∈ q, c ∈ l ∧ c ≠ sep := by
  induction l generalizing q with
  | nil =>
    simp [splitCh] at hq
    subst hq
    simp
  | cons a as ih =>
    simp only [splitCh] at hq
    by_cases ha : a = sep
    · rw [if_pos ha] at hq
      rcases List.mem_cons.mp hq with hq1 | hq1
      · subst hq1; intro c hc; simp at hc
      · intro c hc
        have h2 := ih (q := q) hq1 c hc
        exact ⟨by simp [h2.1], h2.2⟩
    · rw [if_neg ha] at hq
      cases h : splitCh sep as with
      | nil => exact absurd h (splitCh_ne_nil sep as)
      | cons p ps =>
        rw [h] at hq
        simp only [List.headD_cons, List.tail_cons] at hq
        rcases List.mem_cons.mp hq with hq1 | hq1
        · subst hq1
          intro c hc
          rcases List.mem_cons.mp hc with hc1 | hc1
          · subst hc1; exact ⟨by simp, ha⟩
          · have h2 := ih (q := p) (by rw [h]; simp) c hc1
            exact ⟨by simp [h2.1], h2.2⟩
        · intro c hc
          have h2 := ih (q := q) (by rw [h]; simp [hq1]) c hc
          exact ⟨by simp [h2.1], h2.2⟩

/-! ### Lemmas about decimal rendering and parsing -/

theorem digitsRevAux_lt {f : Nat} : ∀ {n : Nat}, ∀ d ∈ digitsRevAux f n, d < 10 := by
  induction f with
  | zero => intro n d hd; simp [digitsRevAux] at hd
  | succ f ih =>
    intro n d hd
    simp only [digitsRevAux] at hd
    split at hd
    · simp at hd
    · rcases List.mem_cons.mp hd with h | h
      · subst h; exact Nat.mod_lt _ (by norm_num)
      · exact ih _ h

theorem ofDigitsRev_digitsRevAux {f : Nat} : ∀ {n : Nat}, n ≤ f →
    ofDigitsRev (digitsRevAux f n) = n := by
  induction f with
  | zero =>
    intro n h
    have hn : n = 0 := by omega
    subst hn
    rfl
  | succ f ih =>
    intro n h
    by_cases hn : n = 0
    · subst hn; simp [digitsRevAux, ofDigitsRev]
    · have h1 : n / 10 ≤ f := by
        have := Nat.div_lt_self (Nat.pos_of_ne_zero hn) (by norm_num : 1 < 10)
        omega
      simp only [digitsRevAux, if_neg hn, ofDigitsRev, ih h1]
      omega

theorem ofDigitsRev_digitsRev (n : Nat) : ofDigitsRev (digitsRev n) = n :=
  ofDigitsRev_digitsRevAux (Nat.le_refl n)

theorem digChar_spec : ∀ d, d < 10 → digVal (digChar d) = d ∧ isDig (digChar d) = true := by
  decide

theorem showNat_digits {n : Nat} : ∀ c ∈ showNat n, isDig c = true := by
  intro c hc
  unfold showNat at hc
  split at hc
  · simp at hc; subst hc; decide
  · simp only [List.mem_reverse, List.mem_map] at hc
    obtain ⟨d, hd, rfl⟩ := hc
    exact (digChar_spec d (digitsRevAux_lt d hd)).2

theorem showNat_ne_nil {n : Nat} : showNat n ≠ [] := by
  unfold showNat
  split
  · simp
  · next hn =>
    obtain ⟨m, rfl⟩ : ∃ m, n = m + 1 := ⟨n - 1, by omega⟩
    simp [digitsRev, digitsRevAux]

theorem parseNat_eq_of {l : List Char} (h1 : l ≠ []) (h2 : l.all isDig = true) :
    parseNat l = some (ofDigitsRev ((l.map digVal).reverse)) := by
  cases l with
  | nil => exact absurd rfl h1
  | cons c t => simp [parseNat, h2]

theorem parseNat_showNat (n : Nat) : parseNat (showNat n) = some n := by
  have hall : (showNat n).all isDig = true :=
    List.all_eq_true.mpr (fun c hc => showNat_digits c hc)
  rw [parseNat_eq_of showNat_ne_nil hall]
  congr 1
  unfold showNat
  split
  · next hn => subst hn; rfl
  · rw [List.map_reverse, List.reverse_reverse, List.map_map]
    have hmap : (digitsRev n).map (digVal ∘ digChar) = (digitsRev n).map id :=
      List.map_congr_left (fun d hd => (digChar_spec d (digitsRevAux_lt d hd)).1)
    rw [hmap, List.map_id, ofDigitsRev_digitsRev]

theorem showInt_chars {i : Int} : ∀ c ∈ showInt i, isDig c = true ∨ c = '-' := by
  intro c hc
  unfold showInt at hc
  split at hc
  · rcases List.mem_cons.mp hc with h | h
    · right; exact h
    · left; exact showNat_digits c h
  · left; exact showNat_digits c hc

theorem parseInt_showInt (i : Int) : parseInt (showInt i) = some i := by
  unfold showInt
  split
  · next hi =>
    simp [parseInt, parseNat_showNat]
    rw [abs_of_neg hi]
    ring
  · next hi =>
    obtain ⟨c, t, hct⟩ := List.exists_cons_of_ne_nil (showNat_ne_nil (n := i.natAbs))
    rw [hct]
    have hc : c ≠ '-' := by
      have hd : isDig c = true := showNat_digits c (by rw [hct]; simp)
      intro h
      subst h
      exact absurd hd (by decide)
    simp [parseInt, hc, ← hct, parseNat_showNat]
    omega

theorem isDig_ne {c : Char} (h : isDig c = true) :
    c ≠ '/' ∧ c ≠ ',' ∧ c ≠ '\n' ∧ c ≠ '-' := by
  refine ⟨?_, ?_, ?_, ?_⟩ <;> intro hc <;> subst hc <;> exact absurd h (by decide)

theorem showQ_chars {q : ℚ} : ∀ c ∈ showQ q, isDig c = true ∨ c = '-' ∨ c = '/' := by
  intro c hc
  unfold showQ at hc
  rcases List.mem_append.mp hc with h | h
  · rcases showInt_chars c h with h1 | h1
    · exact Or.inl h1
    · exact Or.inr (Or.inl h1)
  · rcases List.mem_cons.mp h with h1 | h1
    · exact Or.inr (Or.inr h1)
    · exact Or.inl (showNat_digits c h1)

theorem showQ_ne_comma_newline {q : ℚ} : ∀ c ∈ showQ q, c ≠ ',' ∧ c ≠ '\n' := by
  intro c hc
  rcases showQ_chars c hc with h | h | h
  · exact ⟨(isDig_ne h).2.1, (isDig_ne h).2.2.1⟩
  · subst h; exact ⟨by decide, by decide⟩
  · subst h; exact ⟨by decide, by decide⟩

theorem parseQ_showQ (q : ℚ) : parseQ (showQ q) = some q := by
  unfold parseQ showQ
  have h1 : splitCh '/' (showInt q.num ++ '/' :: showNat q.den) =
      showInt q.num :: splitCh '/' (showNat q.den) := by
    refine splitCh_append_cons (fun c hc => ?_)
    rcases showInt_chars c hc with h | h
    · exact (isDig_ne h).1
    · subst h; decide
  have h2 : splitCh '/' (showNat q.den) = [showNat q.den] := by
    refine splitCh_no_sep (fun c hc => (isDig_ne (showNat_digits c hc)).1)
  rw [h1, h2]
  simp [parseInt_showInt, parseNat_showNat, Rat.num_div_den]

theorem parseQs_showQs (q : ℚ) : parseQs (showQs q) = some q := by
  have hdata : (showQs q).data = showQ q := rfl
  rw [parseQs, hdata, parseQ_showQ]

/-! ### Lemmas about Python dict construction -/

theorem keys_dictInsert (d : List (String × ℚ)) (k : String) (v : ℚ) :
    keys (dictInsert d k v) = if k ∈ keys d then keys d else keys d ++ [k] := by
  unfold dictInsert keys
  by_cases h : k ∈ d.map Prod.fst
  · have hany : d.any (fun p => p.1 = k) = true := by
      simp only [List.any_eq_true]
      obtain ⟨p, hp, hpk⟩ := List.mem_map.mp h
      exact ⟨p, hp, by simp [hpk]⟩
    rw [if_pos hany, if_pos h, List.map_map]
    refine List.map_congr_left (fun p hp => ?_)
    by_cases hpk : p.1 = k <;> simp [hpk]
  · have hany : ¬ d.any (fun p => p.1 = k) = true := by
      simp only [List.any_eq_true]
      rintro ⟨p, hp, hpk⟩
      simp only [decide_eq_true_eq] at hpk
      exact h (List.mem_map.mpr ⟨p, hp, hpk⟩)
    rw [if_neg hany, if_neg h, List.map_append]
    rfl

theorem dictGet_eq_none {d : List (String × ℚ)} {k : String} (h : k ∉ keys d) :
    dictGet k d = none := by
  induction d with
  | nil => rfl
  | cons p t ih =>
    obtain ⟨k0, v⟩ := p
    simp only [keys, List.map_cons, List.mem_cons] at h
    push_neg at h
    simp only [dictGet, if_neg h.1]
    exact ih h.2

theorem dictGet_mapReplace_self {d : List (String × ℚ)} {k : String} (v : ℚ)
    (h : k ∈ keys d) :
    dictGet k (d.map (fun p => if p.1 = k then (k, v) else p)) = some v := by
  induction d with
  | nil => simp [keys] at h
  | cons p t ih =>
    obtain ⟨k0, v0⟩ := p
    simp only [List.map_cons]
    by_cases hk : k0 = k
    · subst hk
      rw [if_pos rfl]
      simp [dictGet]
    · have hne : ¬ ((k0, v0).1 = k) := hk
      rw [if_neg hne]
      simp only [keys, List.map_cons, List.mem_cons] at h
      rcases h with h1 | h1
      · exact absurd h1.symm hk
      · simp only [dictGet, if_neg (fun hx : k = k0 => hk hx.symm)]
        exact ih h1

theorem dictGet_mapReplace_ne {d : List (String × ℚ)} {k k2 : String} (v : ℚ)
    (h : k2 ≠ k) :
    dictGet k2 (d.map (fun p => if p.1 = k then (k, v) else p)) = dictGet k2 d := by
  induction d with
  | nil => rfl
  | cons p t ih =>
    obtain ⟨k0, v0⟩ := p
    simp only [List.map_cons]
    by_cases hk : k0 = k
    · subst hk
      rw [if_pos rfl]
      simp [dictGet, h, ih]
    · have hne : ¬ ((k0, v0).1 = k) := hk
      rw [if_neg hne]
      by_cases h2 : k2 = k0
      · simp [dictGet, h2]
      · simp [dictGet, h2, ih]

theorem dictGet_append (a b : List (String × ℚ)) (k : String) :
    dictGet k (a ++ b) = (dictGet k a).or (dictGet k b) := by
  induction a with
  | nil => simp [dictGet]
  | cons p t ih =>
    obtain ⟨k0, v0⟩ := p
    by_cases h : k = k0 <;> simp [dictGet, h, ih]

theorem dictGet_dictInsert (d : List (String × ℚ)) (k k2 : String) (v : ℚ) :
    dictGet k2 (dictInsert d k v) = if k2 = k then some v else dictGet k2 d := by
  unfold dictInsert
  by_cases hin : k ∈ keys d
  · have hany : d.any (fun p => p.1 = k) = true := by
      simp only [List.any_eq_true]
      obtain ⟨p, hp, hpk⟩ := List.mem_map.mp hin
      exact ⟨p, hp, by simp [hpk]⟩
    rw [if_pos hany]
    by_cases h2 : k2 = k
    · subst h2; rw [if_pos rfl, dictGet_mapReplace_self v hin]
    · rw [if_neg h2, dictGet_mapReplace_ne v h2]
  · have hany : ¬ d.any (fun p => p.1 = k) = true := by
      simp only [List.any_eq_true]
      rintro ⟨p, hp, hpk⟩
      simp only [decide_eq_true_eq] at hpk
      exact hin (List.mem_map.mpr ⟨p, hp, hpk⟩)
    rw [if_neg hany, dictGet_append]
    by_cases h2 : k2 = k
    · subst h2; rw [if_pos rfl, dictGet_eq_none hin]; simp [dictGet]
    · rw [if_neg h2]
      simp [dictGet, h2]

theorem dictGet_foldl (l : List (String × ℚ)) (acc : List (String × ℚ)) (k : String) :
    dictGet k (l.foldl (fun d p => dictInsert d p.1 p.2) acc) =
      (dictGet k l.reverse).or (dictGet k acc) := by
  induction l generalizing acc with
  | nil => simp [dictGet]
  | cons p t ih =>
    obtain ⟨k0, v0⟩ := p
    rw [List.foldl_cons, ih, List.reverse_cons, dictGet_append, dictGet_dictInsert]
    cases hx : dictGet k t.reverse <;> by_cases h2 : k = k0 <;>
      simp [dictGet, h2, hx, Option.or]

/-- Looking a key up in the dict the handler builds is looking it up in the
reversed zip: the value of the key at its last occurrence. -/
theorem dictGet_dictOfZip (ks : List String) (vs : List ℚ) (k : String) :
    dictGet k (dictOfZip ks vs) = dictGet k (ks.zip vs).reverse := by
  unfold dictOfZip dictOfList
  rw [dictGet_foldl]
  simp [dictGet]

theorem firstSeenAux_congr {s1 s2 : List String} (h : ∀ x, x ∈ s1 ↔ x ∈ s2)
    (l : List String) : firstSeenAux s1 l = firstSeenAux s2 l := by
  induction l generalizing s1 s2 with
  | nil => rfl
  | cons k t ih =>
    simp only [firstSeenAux]
    by_cases hk : k ∈ s1
    · rw [if_pos hk, if_pos ((h k).mp hk), ih h]
    · rw [if_neg hk, if_neg (fun hx => hk ((h k).mpr hx))]
      exact congrArg (List.cons k) (ih (fun x => by simp [List.mem_cons, h x]))

theorem keys_foldl (l : List (String × ℚ)) (acc : List (String × ℚ)) :
    keys (l.foldl (fun d p => dictInsert d p.1 p.2) acc) =
      keys acc ++ firstSeenAux (keys acc) (keys l) := by
  induction l generalizing acc with
  | nil => simp [firstSeenAux, keys]
  | cons p t ih =>
    obtain ⟨k0, v0⟩ := p
    rw [List.foldl_cons, ih, keys_dictInsert]
    have hkeys : keys ((k0, v0) :: t) = k0 :: keys t := rfl
    rw [hkeys]
    simp only [firstSeenAux]
    by_cases h : k0 ∈ keys acc
    · simp [h]
    · have hcongr : firstSeenAux (keys acc ++ [k0]) (keys t) =
          firstSeenAux (k0 :: keys acc) (keys t) :=
        firstSeenAux_congr (fun x => by simp [or_comm]) (keys t)
      simp [h, hcongr, List.append_assoc]

/-- The keys of the dict the handler builds are the zipped keys in
first-seen order. -/
theorem keys_dictOfZip (ks : List String) (vs : List ℚ) :
    keys (dictOfZip ks vs) = firstSeen (keys (ks.zip vs)) := by
  unfold dictOfZip dictOfList firstSeen
  rw [keys_foldl]
  rfl

theorem mem_firstSeenAux {l : List String} :
    ∀ {seen x}, x ∈ firstSeenAux seen l ↔ (x ∈ l ∧ x ∉ seen) := by
  induction l with
  | nil => simp [firstSeenAux]
  | cons k t ih =>
    intro seen x
    simp only [firstSeenAux]
    by_cases hk : k ∈ seen
    · rw [if_pos hk, ih]
      simp only [List.mem_cons]
      constructor
      · rintro ⟨h1, h2⟩; exact ⟨Or.inr h1, h2⟩
      · rintro ⟨h1, h2⟩
        rcases h1 with h1 | h1
        · subst h1; exact absurd hk h2
        · exact ⟨h1, h2⟩
    · rw [if_neg hk]
      by_cases hx : x = k
      · subst hx; simp [hk]
      · simp [hx, ih, List.mem_cons]

theorem nodup_firstSeenAux {l seen : List String} : (firstSeenAux seen l).Nodup := by
  induction l generalizing seen with
  | nil => simp [firstSeenAux]
  | cons k t ih =>
    simp only [firstSeenAux]
    split
    · exact ih
    · refine List.nodup_cons.mpr ⟨?_, ih⟩
      intro hk
      exact (mem_firstSeenAux.mp hk).2 (by simp)

theorem mem_firstSeen {l : List String} {x : String} : x ∈ firstSeen l ↔ x ∈ l := by
  unfold firstSeen
  rw [mem_firstSeenAux]
  simp

theorem nodup_firstSeen {l : List String} : (firstSeen l).Nodup := nodup_firstSeenAux

theorem mem_foldl_dictInsert {l acc : List (String × ℚ)} {p : String × ℚ}
    (hp : p ∈ l.foldl (fun d q => dictInsert d q.1 q.2) acc) : p ∈ acc ∨ p ∈ l := by
  induction l generalizing acc with
  | nil => exact Or.inl hp
  | cons q t ih =>
    rw [List.foldl_cons] at hp
    rcases ih hp with h | h
    · unfold dictInsert at h
      split at h
      · rcases List.mem_map.mp h with ⟨p0, hp0, hrep⟩
        by_cases hpq : p0.1 = q.1
        · rw [if_pos hpq] at hrep
          right
          rw [← hrep]
          simp [Prod.mk.eta]
        · rw [if_neg hpq] at hrep
          subst hrep
          exact Or.inl hp0
      · rcases List.mem_append.mp h with h1 | h1
        · exact Or.inl h1
        · right
          simp only [List.mem_singleton] at h1
          subst h1
          simp [Prod.mk.eta]
    · exact Or.inr (List.mem_cons_of_mem _ h)

/-- Every entry of the dict the handler builds is one of the zipped pairs. -/
theorem mem_dictOfZip {ks : List String} {vs : List ℚ} {p : String × ℚ}
    (hp : p ∈ dictOfZip ks vs) : p ∈ ks.zip vs := by
  rcases mem_foldl_dictInsert hp with h | h
  · simp at h
  · exact h

/-! ### Lemmas about the table operations and the inference call -/

theorem asString_data (s : String) : s.data.asString = s := by
  cases s
  rfl

theorem findIdxS_mem {c : String} {l : List String} (h : c ∈ l) :
    ∃ i, findIdxS c l = some i := by
  induction l with
  | nil => simp at h
  | cons x t ih =>
    by_cases hx : x = c
    · exact ⟨0, by simp [findIdxS, hx]⟩
    · rcases List.mem_cons.mp h with h1 | h1
      · exact absurd h1.symm hx
      · obtain ⟨i, hi⟩ := ih h1
        exact ⟨i + 1, by simp [findIdxS, hx, hi]⟩

theorem getCol_length {df : DataFrame} {c : String} (h : c ∈ df.columns) :
    (df.getCol c).length = df.rows.length := by
  obtain ⟨i, hi⟩ := findIdxS_mem h
  unfold DataFrame.getCol
  rw [hi]
  simp

theorem getD_mem_or (r : List String) (i : Nat) : r.getD i "" ∈ r ∨ r.getD i "" = "" := by
  induction r generalizing i with
  | nil => right; rfl
  | cons x t ih =>
    cases i with
    | zero => left; simp
    | succ j =>
      rcases ih j with h | h
      · left; simp only [List.getD_cons_succ]; exact List.mem_cons_of_mem _ h
      · right; simpa using h

theorem predict_ok_eq {m : Model} {df : DataFrame} {preds : List ℚ}
    (h : m.predict df = .ok preds) :
    preds = df.rows.map (fun r => m.predictRow (df.columns.zip r)) := by
  unfold Model.predict at h
  split at h
  · exact (Except.ok.injEq _ _ ▸ h).symm
  · exact absurd h (by simp)

theorem predict_length {m : Model} {df : DataFrame} {preds : List ℚ}
    (h : m.predict df = .ok preds) : preds.length = df.rows.length := by
  rw [predict_ok_eq h]
  simp

theorem drop_rows_length (df : DataFrame) (c : String) :
    (df.drop c).rows.length = df.rows.length := by
  unfold DataFrame.drop
  simp

/-- What a successful `read_csv` means: the non-blank lines are a header and
the rows, the table is not ragged, and the data frame is built from the
cells. -/
theorem read_csv_eq_ok {s : String} {df : DataFrame} :
    read_csv s = .ok df ↔
      ∃ hdr rest, (splitCh '\n' s.data).filter (fun l => l ≠ []) = hdr :: rest ∧
        ((rest.map cellsOfLine).all fun r => r.length = (cellsOfLine hdr).length) = true ∧
        df = ⟨cellsOfLine hdr, rest.map cellsOfLine⟩ := by
  unfold read_csv
  cases hsplit : (splitCh '\n' s.data).filter (fun l => l ≠ []) with
  | nil => simp
  | cons a as =>
    constructor
    · intro h
      replace h : (if ((as.map cellsOfLine).all fun r =>
            r.length = (cellsOfLine a).length) = true
          then Except.ok (⟨cellsOfLine a, as.map cellsOfLine⟩ : DataFrame)
          else Except.error "Error tokenizing data") = Except.ok df := h
      split at h
      · refine ⟨a, as, rfl, by assumption, ?_⟩
        injection h with h
        exact h.symm
      · exact absurd h (by simp)
    · rintro ⟨hdr, rest, heq, hall, hdf⟩
      obtain ⟨rfl, rfl⟩ : a = hdr ∧ as = rest := by
        constructor <;> [exact (List.cons.injEq _ _ _ _ ▸ heq).1;
          exact (List.cons.injEq _ _ _ _ ▸ heq).2]
      show (if _ then _ else _) = _
      rw [if_pos hall, hdf]

/-- Every cell produced by the CSV parser is free of separators: it contains
neither a comma nor a newline. -/
theorem read_csv_cells {s : String} {df : DataFrame} (h : read_csv s = .ok df) :
    ∀ r ∈ df.rows, ∀ cell ∈ r, ∀ c ∈ cell.data, c ≠ ',' ∧ c ≠ '\n' := by
  obtain ⟨hdr, rest, hsplit, hall, hdf⟩ := read_csv_eq_ok.mp h
  subst hdf
  intro r hr cell hc c hcd
  simp only [List.mem_map] at hr
  obtain ⟨line, hline, rfl⟩ := hr
  unfold cellsOfLine at hc
  simp only [List.mem_map] at hc
  obtain ⟨q, hq, rfl⟩ := hc
  have hcd2 : c ∈ q := by rwa [show (List.asString q).data = q from rfl] at hcd
  have h1 := mem_splitCh hq c hcd2
  have hlinemem : line ∈ (splitCh '\n' s.data).filter (fun l => l ≠ []) := by
    rw [hsplit]; exact List.mem_cons_of_mem _ hline
  have h2 := mem_splitCh (List.mem_of_mem_filter hlinemem) c h1.1
  exact ⟨h1.2, h2.2⟩

/-- The identifiers the handler extracts are cells of the parsed table (or
the empty string), hence free of commas and newlines. -/
theorem getCol_cells {s : String} {df : DataFrame} {c : String}
    (h : read_csv s = .ok df) :
    ∀ x ∈ df.getCol c, ∀ ch ∈ x.data, ch ≠ ',' ∧ ch ≠ '\n' := by
  intro x hx ch hch
  unfold DataFrame.getCol at hx
  cases hidx : findIdxS c df.columns with
  | none => rw [hidx] at hx; simp at hx
  | some i =>
    rw [hidx] at hx
    simp only [List.mem_map] at hx
    obtain ⟨r, hr, rfl⟩ := hx
    rcases getD_mem_or r i with hmem | hempty
    · exact read_csv_cells h r hr _ hmem ch hch
    · rw [hempty] at hch
      simp at hch

/-! ### The produced CSV text parses back to the result mapping -/

theorem csvRowsChars_split {d : List (String × ℚ)}
    (hclean : ∀ p ∈ d, ∀ c ∈ (p.1 : String).data, c ≠ ',' ∧ c ≠ '\n') :
    splitCh '\n' (csvRowsChars d) =
      d.map (fun p => p.1.data ++ ',' :: showQ p.2) ++ [[]] := by
  induction d with
  | nil => rfl
  | cons p t ih =>
    have hline : ∀ c ∈ p.1.data ++ ',' :: showQ p.2, c ≠ '\n' := by
      intro c hc
      rcases List.mem_append.mp hc with h1 | h1
      · exact (hclean p (by simp) c h1).2
      · rcases List.mem_cons.mp h1 with h2 | h2
        · subst h2; decide
        · exact (showQ_ne_comma_newline c h2).2
    have hassoc : csvRowsChars (p :: t) =
        (p.1.data ++ ',' :: showQ p.2) ++ '\n' :: csvRowsChars t := by
      simp [csvRowsChars, List.append_assoc]
    rw [hassoc, splitCh_append_cons hline, ih (fun q hq => hclean q (by simp [hq]))]
    rfl

theorem read_csv_to_csv {d : List (String × ℚ)}
    (hclean : ∀ p ∈ d, ∀ c ∈ (p.1 : String).data, c ≠ ',' ∧ c ≠ '\n') :
    read_csv (to_csv d) =
      .ok ⟨["id", "prediction"], d.map (fun p => [p.1, showQs p.2])⟩ := by
  have hdata : (to_csv d).data = "id,prediction".data ++ '\n' :: csvRowsChars d := rfl
  have hhdr : ∀ c ∈ "id,prediction".data, c ≠ '\n' := by decide
  have hsplit : splitCh '\n' (to_csv d).data =
      "id,prediction".data :: (d.map (fun p => p.1.data ++ ',' :: showQ p.2) ++ [[]]) := by
    rw [hdata, splitCh_append_cons hhdr, csvRowsChars_split hclean]
  have hlines : (splitCh '\n' (to_csv d).data).filter (fun l => l ≠ []) =
      "id,prediction".data :: d.map (fun p => p.1.data ++ ',' :: showQ p.2) := by
    rw [hsplit]
    rw [List.filter_cons_of_pos (by decide), List.filter_append]
    have h1 : (d.map (fun p => p.1.data ++ ',' :: showQ p.2)).filter (fun l => l ≠ []) =
        d.map (fun p => p.1.data ++ ',' :: showQ p.2) := by
      refine List.filter_eq_self.mpr (fun l hl => ?_)
      simp only [List.mem_map] at hl
      obtain ⟨p, hp, rfl⟩ := hl
      simp
    rw [h1]
    simp
  have hcells : ∀ p ∈ d, cellsOfLine (p.1.data ++ ',' :: showQ p.2) = [p.1, showQs p.2] := by
    intro p hp
    unfold cellsOfLine
    have hid2 : ∀ c ∈ (p.1 : String).data, c ≠ ',' := fun c hc => (hclean p hp c hc).1
    have hq2 : ∀ c ∈ showQ p.2, c ≠ ',' := fun c hc => (showQ_ne_comma_newline c hc).1
    rw [splitCh_append_cons hid2, splitCh_no_sep hq2]
    simp [asString_data, showQs]
  have hrows : (d.map (fun p => p.1.data ++ ',' :: showQ p.2)).map cellsOfLine =
      d.map (fun p => [p.1, showQs p.2]) := by
    rw [List.map_map]
    exact List.map_congr_left (fun p hp => hcells p hp)
  have hcols : cellsOfLine ("id,prediction".data) = ["id", "prediction"] := by decide
  refine read_csv_eq_ok.mpr ⟨"id,prediction".data,
    d.map (fun p => p.1.data ++ ',' :: showQ p.2), hlines, ?_, ?_⟩
  · rw [hrows, hcols]
    refine List.all_eq_true.mpr (fun r hr => ?_)
    obtain ⟨p, hp, rfl⟩ := List.mem_map.mp hr
    rfl
  · rw [hrows, hcols]

/-! ### Evaluation lemmas for the two handlers -/

theorem predictBody_decode_err {m : Model} {file : UploadFile} {e : String}
    (hdec : decodeStr file.contents = .error e) :
    predictBody m file = .error e := by
  unfold predictBody
  simp only [hdec]

theorem predictBody_csv_err {m : Model} {file : UploadFile} {text : String} {e : String}
    (hdec : decodeStr file.contents = .ok text)
    (hcsv : read_csv text = .error e) :
    predictBody m file = .error e := by
  unfold predictBody
  simp only [hdec, hcsv]

theorem predictBody_no_id {m : Model} {file : UploadFile} {text : String} {df : DataFrame}
    (hdec : decodeStr file.contents = .ok text)
    (hcsv : read_csv text = .ok df)
    (hid : "id" ∉ df.columns) :
    predictBody m file = .ok (mkErrorCtx m "В CSV файле отсутствует колонка \x27id\x27.") := by
  unfold predictBody
  simp only [hdec, hcsv, if_pos hid]

theorem predictBody_pred_err {m : Model} {file : UploadFile} {text : String}
    {df : DataFrame} {e : String}
    (hdec : decodeStr file.contents = .ok text)
    (hcsv : read_csv text = .ok df)
    (hid : "id" ∈ df.columns)
    (hpred : m.predict (df.drop "id") = .error e) :
    predictBody m file = .error e := by
  unfold predictBody
  simp only [hdec, hcsv, if_neg (by simp [hid] : ¬ ("id" ∉ df.columns)), hpred]

theorem predictBody_ok_of {m : Model} {file : UploadFile} {text : String}
    {df : DataFrame} {preds : List ℚ}
    (hdec : decodeStr file.contents = .ok text)
    (hcsv : read_csv text = .ok df)
    (hid : "id" ∈ df.columns)
    (hpred : m.predict (df.drop "id") = .ok preds) :
    predictBody m file = .ok (mkResultsCtx m (dictOfZip (df.getCol "id") preds)) := by
  unfold predictBody
  simp only [hdec, hcsv, if_neg (by simp [hid] : ¬ ("id" ∉ df.columns)), hpred]

theorem pf_bad_ext {m : Model} {name : String} {bytes : List Nat}
    (h : endswith name ".csv" = false) :
    predict_from_form m ⟨some name, bytes⟩ = .ok (mkErrorCtx m "Неверный формат файла.") := by
  unfold predict_from_form
  simp [h]

theorem pf_ok_of {m : Model} {name : String} {bytes : List Nat} {ctx : Context}
    (hext : endswith name ".csv" = true)
    (hb : predictBody m ⟨some name, bytes⟩ = .ok ctx) :
    predict_from_form m ⟨some name, bytes⟩ = .ok ctx := by
  unfold predict_from_form
  simp [hext, hb]

theorem pf_caught {m : Model} {name : String} {bytes : List Nat} {e : String}
    (hext : endswith name ".csv" = true)
    (hb : predictBody m ⟨some name, bytes⟩ = .error e) :
    predict_from_form m ⟨some name, bytes⟩ =
      .ok (mkErrorCtx m ("Произошла ошибка: " ++ e)) := by
  unfold predict_from_form
  simp [hext, hb]

/-- The full success path of the handler: valid extension, decodable body,
parsable CSV with an `id` column, inference succeeding — results page. -/
theorem predict_success {m : Model} {name : String} {bytes : List Nat} {text : String}
    {df : DataFrame} {preds : List ℚ}
    (hname : endswith name ".csv" = true)
    (hdec : decodeStr bytes = .ok text)
    (hcsv : read_csv text = .ok df)
    (hid : "id" ∈ df.columns)
    (hpred : m.predict (df.drop "id") = .ok preds) :
    predict_from_form m ⟨some name, bytes⟩ =
      .ok (mkResultsCtx m (dictOfZip (df.getCol "id") preds)) :=
  pf_ok_of hname (predictBody_ok_of hdec hcsv hid hpred)

/-- Any `.ok` result of the body is an error page or a results page. -/
theorem predictBody_shapes {m : Model} {file : UploadFile} {ctx : Context}
    (h : predictBody m file = .ok ctx) :
    (∃ msg, ctx = mkErrorCtx m msg) ∨ (∃ d, ctx = mkResultsCtx m d) := by
  cases hdec : decodeStr file.contents with
  | error e => rw [predictBody_decode_err hdec] at h; exact absurd h (by simp)
  | ok text =>
    cases hcsv : read_csv text with
    | error e => rw [predictBody_csv_err hdec hcsv] at h; exact absurd h (by simp)
    | ok df =>
      by_cases hid : "id" ∈ df.columns
      · cases hpred : m.predict (df.drop "id") with
        | error e =>
          rw [predictBody_pred_err hdec hcsv hid hpred] at h
          exact absurd h (by simp)
        | ok preds =>
          rw [predictBody_ok_of hdec hcsv hid hpred] at h
          injection h with h
          exact Or.inr ⟨_, h.symm⟩
      · rw [predictBody_no_id hdec hcsv hid] at h
        injection h with h
        exact Or.inl ⟨_, h.symm⟩

/-- Any `.ok` response of the POST handler is an error page or a results
page. -/
theorem predict_from_form_shapes {m : Model} {file : UploadFile} {ctx : Context}
    (h : predict_from_form m file = .ok ctx) :
    (∃ msg, ctx = mkErrorCtx m msg) ∨ (∃ d, ctx = mkResultsCtx m d) := by
  obtain ⟨fn, bytes⟩ := file
  cases fn with
  | none => exact absurd h (by simp [predict_from_form])
  | some name =>
    by_cases hext : endswith name ".csv"
    · cases hb : predictBody m ⟨some name, bytes⟩ with
      | error e =>
        rw [pf_caught hext hb] at h
        injection h with h
        exact Or.inl ⟨_, h.symm⟩
      | ok ctx0 =>
        rw [pf_ok_of hext hb] at h
        injection h with h
        exact h ▸ predictBody_shapes hb
    · rw [pf_bad_ext (by simpa using hext)] at h
      injection h with h
      exact Or.inl ⟨_, h.symm⟩

/-- The identifier column, zipped with one prediction per row, has exactly
the identifiers as its key sequence. -/
theorem zip_keys_getCol {m : Model} {df : DataFrame} {preds : List ℚ}
    (hid : "id" ∈ df.columns)
    (hpred : m.predict (df.drop "id") = .ok preds) :
    ((df.getCol "id").zip preds).map Prod.fst = df.getCol "id" := by
  apply List.map_fst_zip
  rw [predict_length hpred, drop_rows_length, getCol_length hid]

/-! ### The claims -/

/-- C9: when the uploaded file carries no filename, the extension check
itself — an attribute access on `None` — raises before the `try` block is
entered, so the request produces no re-rendered page and no user-visible
message: the exception escapes the handler. -/
theorem C9_missing_filename_raises (m : Model) (bytes : List Nat) :
    predict_from_form m ⟨none, bytes⟩ =
      .error "AttributeError: \x27NoneType\x27 object has no attribute \x27endswith\x27" :=
  rfl

/-- C4: an upload whose filename does not end in the literal, case-sensitive
extension `.csv` yields the "invalid file format" error page; the response
is the same for every body and every model, so no decoding, parsing or
inference takes part — the check short-circuits the rest. -/
theorem C4_invalid_extension (m : Model) (name : String) (bytes : List Nat)
    (h : endswith name ".csv" = false) :
    predict_from_form m ⟨some name, bytes⟩ =
      .ok (mkErrorCtx m "Неверный формат файла.") :=
  pf_bad_ext h

/-- Witness for C4: an uppercase `.CSV` extension fails the case-sensitive
check even though the body is a perfectly valid table. -/
theorem C4_invalid_extension_witness :
    endswith "data.CSV" ".csv" = false ∧
    predict_from_form constModel
        ⟨some "data.CSV", strBytes "id,age,cholesterol\n1,2,3\n"⟩ =
      .ok (mkErrorCtx constModel "Неверный формат файла.") :=
  ⟨by decide,
    C4_invalid_extension constModel "data.CSV" (strBytes "id,age,cholesterol\n1,2,3\n")
      (by decide)⟩

/-- C3: for a `.csv`-named upload the handler always returns a page (no
exception ever propagates out of it as a raw server error), and every
exception raised inside the `try` block — whatever stage raised it, and in
particular a decode failure, a CSV-parse failure or an inference failure —
is caught and converted into the re-rendered form page carrying the
user-visible message built from the exception text.  A body that is not
valid UTF-8 therefore yields the decode-error message, not a crash.
(Formatting in the embedding is total, so a formatting exception is covered
by the any-`try`-block-exception conjunct.) -/
theorem C3_exceptions_caught (m : Model) (name : String) (bytes : List Nat)
    (h : endswith name ".csv" = true) :
    (∃ ctx, predict_from_form m ⟨some name, bytes⟩ = .ok ctx) ∧
    (∀ e, predictBody m ⟨some name, bytes⟩ = .error e →
      predict_from_form m ⟨some name, bytes⟩ =
        .ok (mkErrorCtx m ("Произошла ошибка: " ++ e))) ∧
    (∀ e, decodeStr bytes = .error e →
      predict_from_form m ⟨some name, bytes⟩ =
        .ok (mkErrorCtx m ("Произошла ошибка: " ++ e))) ∧
    (∀ text e, decodeStr bytes = .ok text → read_csv text = .error e →
      predict_from_form m ⟨some name, bytes⟩ =
        .ok (mkErrorCtx m ("Произошла ошибка: " ++ e))) ∧
    (∀ text df e, decodeStr bytes = .ok text → read_csv text = .ok df →
      "id" ∈ df.columns → m.predict (df.drop "id") = .error e →
      predict_from_form m ⟨some name, bytes⟩ =
        .ok (mkErrorCtx m ("Произошла ошибка: " ++ e))) := by
  refine ⟨?_, ?_, ?_, ?_, ?_⟩
  · cases hb : predictBody m ⟨some name, bytes⟩ with
    | error e => exact ⟨_, pf_caught h hb⟩
    | ok ctx => exact ⟨ctx, pf_ok_of h hb⟩
  · intro e hb
    exact pf_caught h hb
  · intro e he
    exact pf_caught h (predictBody_decode_err he)
  · intro text e hdec hcsv
    exact pf_caught h (predictBody_csv_err hdec hcsv)
  · intro text df e hdec hcsv hid hpred
    exact pf_caught h (predictBody_pred_err hdec hcsv hid hpred)

/-- Witness for C3: a lone `0xFF` byte is not UTF-8; the handler still
returns a page, and any `try`-block exception — at the decode, parse or
inference stage — becomes the error-message page. -/
theorem C3_exceptions_caught_witness :
    endswith "a.csv" ".csv" = true ∧
    ((∃ ctx, predict_from_form constModel ⟨some "a.csv", [0xFF]⟩ = .ok ctx) ∧
     (∀ e, predictBody constModel ⟨some "a.csv", [0xFF]⟩ = .error e →
       predict_from_form constModel ⟨some "a.csv", [0xFF]⟩ =
         .ok (mkErrorCtx constModel ("Произошла ошибка: " ++ e))) ∧
     (∀ e, decodeStr [0xFF] = .error e →
       predict_from_form constModel ⟨some "a.csv", [0xFF]⟩ =
         .ok (mkErrorCtx constModel ("Произошла ошибка: " ++ e))) ∧
     (∀ text e, decodeStr [0xFF] = .ok text → read_csv text = .error e →
       predict_from_form constModel ⟨some "a.csv", [0xFF]⟩ =
         .ok (mkErrorCtx constModel ("Произошла ошибка: " ++ e))) ∧
     (∀ text df e, decodeStr [0xFF] = .ok text → read_csv text = .ok df →
       "id" ∈ df.columns → constModel.predict (df.drop "id") = .error e →
       predict_from_form constModel ⟨some "a.csv", [0xFF]⟩ =
         .ok (mkErrorCtx constModel ("Произошла ошибка: " ++ e)))) :=
  ⟨by decide, C3_exceptions_caught constModel "a.csv" [0xFF] (by decide)⟩

/-- C5: a `.csv` upload that decodes and parses as a table without a column
literally named `id` yields the missing-id error page; the response does not
depend on the model, so no inference takes part, whatever feature columns
are present. -/
theorem C5_missing_id_column (m : Model) (name : String) (bytes : List Nat)
    (text : String) (df : DataFrame)
    (hname : endswith name ".csv" = true)
    (hdec : decodeStr bytes = .ok text)
    (hcsv : read_csv text = .ok df)
    (hid : "id" ∉ df.columns) :
    predict_from_form m ⟨some name, bytes⟩ =
      .ok (mkErrorCtx m "В CSV файле отсутствует колонка \x27id\x27.") :=
  pf_ok_of hname (predictBody_no_id hdec hcsv hid)

/-- Witness for C5: a table carrying exactly the feature columns but no `id`
column still gets the missing-id error. -/
theorem C5_missing_id_column_witness :
    endswith "a.csv" ".csv" = true ∧
    decodeStr (strBytes "age,cholesterol\n1,2\n") = .ok "age,cholesterol\n1,2\n" ∧
    read_csv "age,cholesterol\n1,2\n" =
      .ok ⟨["age", "cholesterol"], [["1", "2"]]⟩ ∧
    "id" ∉ (⟨["age", "cholesterol"], [["1", "2"]]⟩ : DataFrame).columns ∧
    predict_from_form constModel ⟨some "a.csv", strBytes "age,cholesterol\n1,2\n"⟩ =
      .ok (mkErrorCtx constModel "В CSV файле отсутствует колонка \x27id\x27.") :=
  ⟨by decide, by decide, by decide, by decide,
    C5_missing_id_column constModel "a.csv" (strBytes "age,cholesterol\n1,2\n")
      "age,cholesterol\n1,2\n" ⟨["age", "cholesterol"], [["1", "2"]]⟩
      (by decide) (by decide) (by decide) (by decide)⟩

/-- C1: when the uploaded rows (after the `id` column is dropped) do not
supply exactly the Feature Schema fields — extra or missing feature
columns — the inference call rejects the table and the user receives an
error page, never a successful prediction response. -/
theorem C1_schema_validation (m : Model) (name : String) (bytes : List Nat)
    (text : String) (df : DataFrame)
    (hname : endswith name ".csv" = true)
    (hdec : decodeStr bytes = .ok text)
    (hcsv : read_csv text = .ok df)
    (hid : "id" ∈ df.columns)
    (hmis : m.schemaOk (df.drop "id").columns = false) :
    predict_from_form m ⟨some name, bytes⟩ =
      .ok (mkErrorCtx m ("Произошла ошибка: " ++ featureMismatchMsg)) ∧
    (mkErrorCtx m ("Произошла ошибка: " ++ featureMismatchMsg)).error.isSome = true ∧
    (mkErrorCtx m ("Произошла ошибка: " ++ featureMismatchMsg)).results = none := by
  have hpred : m.predict (df.drop "id") = .error featureMismatchMsg := by
    unfold Model.predict
    simp [hmis]
  exact ⟨pf_caught hname (predictBody_pred_err hdec hcsv hid hpred), rfl, rfl⟩

/-- Witness for C1: the model expects `age` and `cholesterol`, the upload
supplies only `age` — a missing feature field — and gets the error page. -/
theorem C1_schema_validation_witness :
    endswith "a.csv" ".csv" = true ∧
    decodeStr (strBytes "id,age\n1,2\n") = .ok "id,age\n1,2\n" ∧
    read_csv "id,age\n1,2\n" = .ok ⟨["id", "age"], [["1", "2"]]⟩ ∧
    "id" ∈ (⟨["id", "age"], [["1", "2"]]⟩ : DataFrame).columns ∧
    constModel.schemaOk ((⟨["id", "age"], [["1", "2"]]⟩ : DataFrame).drop "id").columns
      = false ∧
    predict_from_form constModel ⟨some "a.csv", strBytes "id,age\n1,2\n"⟩ =
      .ok (mkErrorCtx constModel ("Произошла ошибка: " ++ featureMismatchMsg)) :=
  ⟨by decide, by decide, by decide, by decide, by decide,
    (C1_schema_validation constModel "a.csv" (strBytes "id,age\n1,2\n")
      "id,age\n1,2\n" ⟨["id", "age"], [["1", "2"]]⟩
      (by decide) (by decide) (by decide) (by decide) (by decide)).1⟩

/-- C2: on the success path the response mapping is the insertion-ordered dict
of identifiers zipped with predictions: its keys are the identifiers in
first-seen order, each exactly once (so a duplicated identifier has a single
entry), and each key is mapped to the prediction of its last occurrence —
looking it up in the dict equals looking it up in the reversed zip
(last-write-wins). -/
theorem C2_last_write_wins (m : Model) (name : String) (bytes : List Nat)
    (text : String) (df : DataFrame) (preds : List ℚ)
    (hname : endswith name ".csv" = true)
    (hdec : decodeStr bytes = .ok text)
    (hcsv : read_csv text = .ok df)
    (hid : "id" ∈ df.columns)
    (hpred : m.predict (df.drop "id") = .ok preds) :
    predict_from_form m ⟨some name, bytes⟩ =
      .ok (mkResultsCtx m (dictOfZip (df.getCol "id") preds)) ∧
    keys (dictOfZip (df.getCol "id") preds) = firstSeen (df.getCol "id") ∧
    (keys (dictOfZip (df.getCol "id") preds)).Nodup ∧
    (∀ k, dictGet k (dictOfZip (df.getCol "id") preds) =
      dictGet k ((df.getCol "id").zip preds).reverse) := by
  refine ⟨predict_success hname hdec hcsv hid hpred, ?_, ?_,
    fun k => dictGet_dictOfZip _ _ k⟩
  · have hkeys : keys ((df.getCol "id").zip preds) = df.getCol "id" :=
      zip_keys_getCol hid hpred
    rw [keys_dictOfZip, hkeys]
  · rw [keys_dictOfZip]
    exact nodup_firstSeen

/-- Witness for C2: identifier `1` appears in two rows with different
features; the model scores the second row as `1` and the first as `0`, and
the resulting mapping has the single entry `("1", 1)` — the probability of
the last occurrence. -/
theorem C2_last_write_wins_witness :
    endswith "a.csv" ".csv" = true ∧
    decodeStr (strBytes dupCsv) = .ok dupCsv ∧
    read_csv dupCsv = .ok dupDf ∧
    "id" ∈ dupDf.columns ∧
    rowModel.predict (dupDf.drop "id") = .ok [0, 1] ∧
    dictOfZip (dupDf.getCol "id") [0, 1] = [("1", 1)] ∧
    (predict_from_form rowModel ⟨some "a.csv", strBytes dupCsv⟩ =
        .ok (mkResultsCtx rowModel (dictOfZip (dupDf.getCol "id") [0, 1])) ∧
      keys (dictOfZip (dupDf.getCol "id") [0, 1]) = firstSeen (dupDf.getCol "id") ∧
      (keys (dictOfZip (dupDf.getCol "id") [0, 1])).Nodup ∧
      (∀ k, dictGet k (dictOfZip (dupDf.getCol "id") [0, 1]) =
        dictGet k ((dupDf.getCol "id").zip [0, 1]).reverse)) :=
  ⟨by decide, by decide, by decide, by decide, by decide, by decide,
    C2_last_write_wins rowModel "a.csv" (strBytes dupCsv) dupCsv dupDf [0, 1]
      (by decide) (by decide) (by decide) (by decide) (by decide)⟩

/-- C6: on the success path, the identifiers of the response mapping are
exactly the values of the `id` column of the input — the same set of
identifiers, with last-write-wins collapsing duplicates. -/
theorem C6_identifier_set (m : Model) (name : String) (bytes : List Nat)
    (text : String) (df : DataFrame) (preds : List ℚ)
    (hname : endswith name ".csv" = true)
    (hdec : decodeStr bytes = .ok text)
    (hcsv : read_csv text = .ok df)
    (hid : "id" ∈ df.columns)
    (hpred : m.predict (df.drop "id") = .ok preds) :
    predict_from_form m ⟨some name, bytes⟩ =
      .ok (mkResultsCtx m (dictOfZip (df.getCol "id") preds)) ∧
    (∀ k, k ∈ keys (dictOfZip (df.getCol "id") preds) ↔ k ∈ df.getCol "id") := by
  refine ⟨predict_success hname hdec hcsv hid hpred, fun k => ?_⟩
  have hkeys : keys ((df.getCol "id").zip preds) = df.getCol "id" :=
    zip_keys_getCol hid hpred
  rw [keys_dictOfZip, hkeys, mem_firstSeen]

/-- Witness for C6 on the two-identifier sample. -/
theorem C6_identifier_set_witness :
    endswith "a.csv" ".csv" = true ∧
    decodeStr (strBytes sampleCsv) = .ok sampleCsv ∧
    read_csv sampleCsv = .ok sampleDf ∧
    "id" ∈ sampleDf.columns ∧
    constModel.predict (sampleDf.drop "id") = .ok [mkRat 1 2, mkRat 1 2] ∧
    (predict_from_form constModel ⟨some "a.csv", strBytes sampleCsv⟩ =
        .ok (mkResultsCtx constModel (dictOfZip (sampleDf.getCol "id") [mkRat 1 2, mkRat 1 2])) ∧
      (∀ k, k ∈ keys (dictOfZip (sampleDf.getCol "id") [mkRat 1 2, mkRat 1 2]) ↔
        k ∈ sampleDf.getCol "id")) :=
  ⟨by decide, by decide, by decide, by decide, by decide,
    C6_identifier_set constModel "a.csv" (strBytes sampleCsv) sampleCsv sampleDf
      [mkRat 1 2, mkRat 1 2] (by decide) (by decide) (by decide) (by decide) (by decide)⟩

/-- C7: on the success path every value of the response mapping is a
probability in the closed interval `[0, 1]` — each value is the model's
score of some row, and the model scores rows in `[0, 1]`. -/
theorem C7_probability_range (m : Model) (name : String) (bytes : List Nat)
    (text : String) (df : DataFrame) (preds : List ℚ)
    (hname : endswith name ".csv" = true)
    (hdec : decodeStr bytes = .ok text)
    (hcsv : read_csv text = .ok df)
    (hid : "id" ∈ df.columns)
    (hpred : m.predict (df.drop "id") = .ok preds) :
    predict_from_form m ⟨some name, bytes⟩ =
      .ok (mkResultsCtx m (dictOfZip (df.getCol "id") preds)) ∧
    (∀ p ∈ dictOfZip (df.getCol "id") preds, 0 ≤ p.2 ∧ p.2 ≤ 1) := by
  refine ⟨predict_success hname hdec hcsv hid hpred, fun p hp => ?_⟩
  obtain ⟨k, v⟩ := p
  have hz := mem_dictOfZip hp
  have hv : v ∈ preds := (List.of_mem_zip hz).2
  rw [predict_ok_eq hpred] at hv
  obtain ⟨r, hr, rfl⟩ := List.mem_map.mp hv
  exact m.predictRow_mem _

/-- Witness for C7 on the two-identifier sample. -/
theorem C7_probability_range_witness :
    endswith "a.csv" ".csv" = true ∧
    decodeStr (strBytes sampleCsv) = .ok sampleCsv ∧
    read_csv sampleCsv = .ok sampleDf ∧
    "id" ∈ sampleDf.columns ∧
    constModel.predict (sampleDf.drop "id") = .ok [mkRat 1 2, mkRat 1 2] ∧
    (predict_from_form constModel ⟨some "a.csv", strBytes sampleCsv⟩ =
        .ok (mkResultsCtx constModel (dictOfZip (sampleDf.getCol "id") [mkRat 1 2, mkRat 1 2])) ∧
      (∀ p ∈ dictOfZip (sampleDf.getCol "id") [mkRat 1 2, mkRat 1 2], 0 ≤ p.2 ∧ p.2 ≤ 1)) :=
  ⟨by decide, by decide, by decide, by decide, by decide,
    C7_probability_range constModel "a.csv" (strBytes sampleCsv) sampleCsv sampleDf
      [mkRat 1 2, mkRat 1 2] (by decide) (by decide) (by decide) (by decide) (by decide)⟩

/-- C8: on the success path, parsing the produced CSV text yields the header
`id, prediction` and one row per mapping entry, and reading each row's `id`
and `prediction` cells back (the prediction cell through the numeric parser)
reconstructs exactly the entries of the mapping the JSON object is printed
from. -/
theorem C8_csv_json_round_trip (m : Model) (name : String) (bytes : List Nat)
    (text : String) (df : DataFrame) (preds : List ℚ) (d : List (String × ℚ))
    (hname : endswith name ".csv" = true)
    (hdec : decodeStr bytes = .ok text)
    (hcsv : read_csv text = .ok df)
    (hid : "id" ∈ df.columns)
    (hpred : m.predict (df.drop "id") = .ok preds)
    (hd : d = dictOfZip (df.getCol "id") preds) :
    predict_from_form m ⟨some name, bytes⟩ = .ok (mkResultsCtx m d) ∧
    (mkResultsCtx m d).results_csv = some (to_csv d) ∧
    (mkResultsCtx m d).results = some d ∧
    read_csv (to_csv d) =
      .ok ⟨["id", "prediction"], d.map (fun p => [p.1, showQs p.2])⟩ ∧
    (d.map (fun p => [p.1, showQs p.2])).map
        (fun r => (r.getD 0 "", parseQs (r.getD 1 ""))) =
      d.map (fun p => (p.1, some p.2)) := by
  subst hd
  have hclean : ∀ p ∈ dictOfZip (df.getCol "id") preds,
      ∀ c ∈ (p.1 : String).data, c ≠ ',' ∧ c ≠ '\n' := by
    intro p hp c hc
    obtain ⟨k, v⟩ := p
    have hz := mem_dictOfZip hp
    have hk : k ∈ df.getCol "id" := (List.of_mem_zip hz).1
    exact getCol_cells hcsv k hk c hc
  refine ⟨predict_success hname hdec hcsv hid hpred, rfl, rfl,
    read_csv_to_csv hclean, ?_⟩
  rw [List.map_map]
  refine List.map_congr_left (fun p hp => ?_)
  simp [parseQs_showQs]

/-- Witness for C8 on the two-identifier sample: the produced CSV text
parses back to the mapping `[("1", 1/2), ("2", 1/2)]`. -/
theorem C8_csv_json_round_trip_witness :
    endswith "a.csv" ".csv" = true ∧
    decodeStr (strBytes sampleCsv) = .ok sampleCsv ∧
    read_csv sampleCsv = .ok sampleDf ∧
    "id" ∈ sampleDf.columns ∧
    constModel.predict (sampleDf.drop "id") = .ok [mkRat 1 2, mkRat 1 2] ∧
    [("1", mkRat 1 2), ("2", mkRat 1 2)] =
      dictOfZip (sampleDf.getCol "id") [mkRat 1 2, mkRat 1 2] ∧
    (predict_from_form constModel ⟨some "a.csv", strBytes sampleCsv⟩ =
        .ok (mkResultsCtx constModel [("1", mkRat 1 2), ("2", mkRat 1 2)]) ∧
      (mkResultsCtx constModel [("1", mkRat 1 2), ("2", mkRat 1 2)]).results_csv =
        some (to_csv [("1", mkRat 1 2), ("2", mkRat 1 2)]) ∧
      (mkResultsCtx constModel [("1", mkRat 1 2), ("2", mkRat 1 2)]).results =
        some [("1", mkRat 1 2), ("2", mkRat 1 2)] ∧
      read_csv (to_csv [("1", mkRat 1 2), ("2", mkRat 1 2)]) =
        .ok ⟨["id", "prediction"],
          ([("1", mkRat 1 2), ("2", mkRat 1 2)]).map
            (fun p => [p.1, showQs p.2])⟩ ∧
      (([("1", mkRat 1 2), ("2", mkRat 1 2)]).map
          (fun p => [p.1, showQs p.2])).map
          (fun r => (r.getD 0 "", parseQs (r.getD 1 ""))) =
        ([("1", mkRat 1 2), ("2", mkRat 1 2)]).map (fun p => (p.1, some p.2))) :=
  ⟨by decide, by decide, by decide, by decide, by decide, by decide,
    C8_csv_json_round_trip constModel "a.csv" (strBytes sampleCsv) sampleCsv sampleDf
      [mkRat 1 2, mkRat 1 2] [("1", mkRat 1 2), ("2", mkRat 1 2)]
      (by decide) (by decide) (by decide) (by decide) (by decide) (by decide)⟩

/-- C10 as stated is false at the GET form page: that response carries no
error field and yet carries none of the results fields, so "results fields
exactly when no error field" fails. -/
theorem C10_get_page_counterexample :
    ¬ (((read_root constModel).results.isSome = true ∧
        (read_root constModel).results_json.isSome = true ∧
        (read_root constModel).results_csv.isSome = true) ↔
      (read_root constModel).error = none) := by
  decide

/-- C10 amended: every rendered page carries the feature list and the
description mapping; the GET form page carries neither an error nor results
fields; and every page the POST handler returns carries the results fields
exactly when it carries no error field, and an error field exactly when it
carries no results fields. -/
theorem C10_context_invariants (m : Model) (file : UploadFile) (ctx : Context)
    (h : predict_from_form m file = .ok ctx) :
    ((read_root m).features = m.feature_name_ ∧
     (read_root m).descriptions = FEATURE_DESCRIPTIONS ∧
     (read_root m).error = none ∧ (read_root m).results = none ∧
     (read_root m).results_json = none ∧ (read_root m).results_csv = none) ∧
    ctx.features = m.feature_name_ ∧ ctx.descriptions = FEATURE_DESCRIPTIONS ∧
    (ctx.error = none ↔ (ctx.results.isSome = true ∧
      ctx.results_json.isSome = true ∧ ctx.results_csv.isSome = true)) ∧
    (ctx.error.isSome = true ↔ (ctx.results = none ∧
      ctx.results_json = none ∧ ctx.results_csv = none)) := by
  refine ⟨⟨rfl, rfl, rfl, rfl, rfl, rfl⟩, ?_⟩
  rcases predict_from_form_shapes h with ⟨msg, rfl⟩ | ⟨d, rfl⟩ <;>
    simp [mkErrorCtx, mkResultsCtx]

/-- Witness for the amended C10 at a concrete rejected upload. -/
theorem C10_context_invariants_witness :
    predict_from_form constModel ⟨some "x.txt", []⟩ =
      .ok (mkErrorCtx constModel "Неверный формат файла.") ∧
    (((read_root constModel).features = constModel.feature_name_ ∧
      (read_root constModel).descriptions = FEATURE_DESCRIPTIONS ∧
      (read_root constModel).error = none ∧ (read_root constModel).results = none ∧
      (read_root constModel).results_json = none ∧
      (read_root constModel).results_csv = none) ∧
     (mkErrorCtx constModel "Неверный формат файла.").features =
        constModel.feature_name_ ∧
     (mkErrorCtx constModel "Неверный формат файла.").descriptions =
        FEATURE_DESCRIPTIONS ∧
     ((mkErrorCtx constModel "Неверный формат файла.").error = none ↔
       ((mkErrorCtx constModel "Неверный формат файла.").results.isSome = true ∧
        (mkErrorCtx constModel "Неверный формат файла.").results_json.isSome = true ∧
        (mkErrorCtx constModel "Неверный формат файла.").results_csv.isSome = true)) ∧
     ((mkErrorCtx constModel "Неверный формат файла.").error.isSome = true ↔
       ((mkErrorCtx constModel "Неверный формат файла.").results = none ∧
        (mkErrorCtx constModel "Неверный формат файла.").results_json = none ∧
        (mkErrorCtx constModel "Неверный формат файла.").results_csv = none))) :=
  ⟨by decide,
    C10_context_invariants constModel ⟨some "x.txt", []⟩
      (mkErrorCtx constModel "Неверный формат файла.") (by decide)⟩

end HeartRisk
